import Mathlib

/-!
Verification of the recommendation core of the Strava AI-Powered
Recommendations repository, formalised as a shallow embedding over `ℚ`.

Sources embedded here:
- `src/app/services/mmr_reranker.py` (`mmr_rerank`)
- `src/app/services/recommender.py` (`Recommender`: `rebuild_from_csv`,
  `load_trained_model`, `_save`/`_load`, `get_collaborative_scores`,
  `search_by_activity`, `search_by_vector`)
- `src/app/services/feature_store.py` (`load_csv_features`, only its
  row-count behaviour matters here)

Modelling conventions:
- Floating point scores become `ℚ`.  All normalisation, blending, greedy
  selection, sorting and slicing logic is embedded exactly.
- Cosine similarity between float feature vectors divides by Euclidean
  norms (a square root), which has no exact rational counterpart; every
  place the code asks sklearn/FAISS for such a similarity, the embedding
  takes the similarity values as an explicitly-quantified function
  parameter (`sim`, `simF`, `vecSim`, `nrm`).  Inner-product search over
  stored vectors stays exact (`dotQ`).
- numpy arrays become `List`s; `np.argsort`-based reordering is modelled
  with a stable insertion sort (the claims proved here do not depend on
  the order of ties, which `np.argsort`'s default quicksort leaves
  unspecified).
-/

namespace StravaRec

/-- Fold-based maximum of a list of rationals, 0 on the empty list.
Mirrors `np.max` on the (always nonempty) arrays the source applies it to. -/
def listMax : List ℚ → ℚ
  | [] => 0
  | x :: xs => xs.foldl max x

/-- Fold-based minimum of a list of rationals, 0 on the empty list.
Mirrors `np.min` on the (always nonempty) arrays the source applies it to. -/
def listMin : List ℚ → ℚ
  | [] => 0
  | x :: xs => xs.foldl min x

theorem foldl_max_le_self (xs : List ℚ) : ∀ x : ℚ, x ≤ xs.foldl max x := by
  induction xs with
  | nil => intro x; exact le_refl x
  | cons y ys ih =>
    intro x
    exact le_trans (le_max_left x y) (ih (max x y))

theorem le_foldl_max (xs : List ℚ) : ∀ x : ℚ, ∀ a ∈ xs, a ≤ xs.foldl max x := by
  induction xs with
  | nil => intro x a ha; cases ha
  | cons y ys ih =>
    intro x a ha
    rcases List.mem_cons.mp ha with h | h
    · subst h
      exact le_trans (le_max_right x a) (foldl_max_le_self ys (max x a))
    · exact ih (max x y) a h

theorem foldl_min_le_self (xs : List ℚ) : ∀ x : ℚ, xs.foldl min x ≤ x := by
  induction xs with
  | nil => intro x; exact le_refl x
  | cons y ys ih =>
    intro x
    exact le_trans (ih (min x y)) (min_le_left x y)

theorem foldl_min_le (xs : List ℚ) : ∀ x : ℚ, ∀ a ∈ xs, xs.foldl min x ≤ a := by
  induction xs with
  | nil => intro x a ha; cases ha
  | cons y ys ih =>
    intro x a ha
    rcases List.mem_cons.mp ha with h | h
    · subst h
      exact le_trans (foldl_min_le_self ys (min x a)) (min_le_right x a)
    · exact ih (min x y) a h

theorem le_listMax {l : List ℚ} {a : ℚ} (ha : a ∈ l) : a ≤ listMax l := by
  cases l with
  | nil => cases ha
  | cons x xs =>
    rcases List.mem_cons.mp ha with h | h
    · subst h; exact foldl_max_le_self xs a
    · exact le_foldl_max xs x a h

theorem listMin_le {l : List ℚ} {a : ℚ} (ha : a ∈ l) : listMin l ≤ a := by
  cases l with
  | nil => cases ha
  | cons x xs =>
    rcases List.mem_cons.mp ha with h | h
    · subst h; exact foldl_min_le_self xs a
    · exact foldl_min_le xs x a h

theorem foldl_max_mem (xs : List ℚ) : ∀ x : ℚ, xs.foldl max x ∈ x :: xs := by
  induction xs with
  | nil => intro x; exact List.mem_singleton.mpr rfl
  | cons y ys ih =>
    intro x
    simp only [List.foldl_cons]
    have h := ih (max x y)
    rcases List.mem_cons.mp h with h | h
    · rw [h]
      rcases max_choice x y with hm | hm
      · rw [hm]; exact List.mem_cons_self _ _
      · rw [hm]; exact List.mem_cons_of_mem _ (List.mem_cons_self _ _)
    · exact List.mem_cons_of_mem _ (List.mem_cons_of_mem _ h)

theorem foldl_min_mem (xs : List ℚ) : ∀ x : ℚ, xs.foldl min x ∈ x :: xs := by
  induction xs with
  | nil => intro x; exact List.mem_singleton.mpr rfl
  | cons y ys ih =>
    intro x
    simp only [List.foldl_cons]
    have h := ih (min x y)
    rcases List.mem_cons.mp h with h | h
    · rw [h]
      rcases min_choice x y with hm | hm
      · rw [hm]; exact List.mem_cons_self _ _
      · rw [hm]; exact List.mem_cons_of_mem _ (List.mem_cons_self _ _)
    · exact List.mem_cons_of_mem _ (List.mem_cons_of_mem _ h)

theorem listMax_mem {l : List ℚ} (h : l ≠ []) : listMax l ∈ l := by
  cases l with
  | nil => exact absurd rfl h
  | cons x xs => exact foldl_max_mem xs x

theorem listMin_mem {l : List ℚ} (h : l ≠ []) : listMin l ∈ l := by
  cases l with
  | nil => exact absurd rfl h
  | cons x xs => exact foldl_min_mem xs x

/-- First-occurrence argmax, the semantics of Python's
`max(xs, key=f)`: scan left to right, replace the current best only on a
strictly larger key.  Used for `max(mmr_scores, key=lambda x: x[1])` in
`mmr_rerank` (line 83 of mmr_reranker.py). -/
def argmaxBy {α : Type} (f : α → ℚ) : List α → Option α
  | [] => none
  | x :: xs => some (xs.foldl (fun best y => if f best < f y then y else best) x)

theorem argmax_foldl_mem {α : Type} (f : α → ℚ) (xs : List α) :
    ∀ x : α, xs.foldl (fun best y => if f best < f y then y else best) x ∈ x :: xs := by
  induction xs with
  | nil => intro x; exact List.mem_singleton.mpr rfl
  | cons y ys ih =>
    intro x
    simp only [List.foldl_cons]
    have h := ih (if f x < f y then y else x)
    rcases List.mem_cons.mp h with h | h
    · rw [h]
      by_cases hc : f x < f y
      · rw [if_pos hc]
        exact List.mem_cons_of_mem _ (List.mem_cons_self _ _)
      · rw [if_neg hc]
        exact List.mem_cons_self _ _
    · exact List.mem_cons_of_mem _ (List.mem_cons_of_mem _ h)

theorem argmax_foldl_le {α : Type} (f : α → ℚ) (xs : List α) :
    ∀ x : α, ∀ a : α, (a = x ∨ a ∈ xs) →
      f a ≤ f (xs.foldl (fun best y => if f best < f y then y else best) x) := by
  induction xs with
  | nil =>
    intro x a ha
    rcases ha with h | h
    · subst h; exact le_refl _
    · cases h
  | cons y ys ih =>
    intro x a ha
    have hstep : f x ≤ f (if f x < f y then y else x) := by
      by_cases hc : f x < f y
      · rw [if_pos hc]; exact le_of_lt hc
      · rw [if_neg hc]
    have hstepy : f y ≤ f (if f x < f y then y else x) := by
      by_cases hc : f x < f y
      · rw [if_pos hc]
      · rw [if_neg hc]; exact le_of_not_lt hc
    have hrec := ih (if f x < f y then y else x)
    rcases ha with h | h
    · subst h
      exact le_trans hstep (hrec _ (Or.inl rfl))
    · rcases List.mem_cons.mp h with h | h
      · subst h
        exact le_trans hstepy (hrec _ (Or.inl rfl))
      · exact hrec a (Or.inr h)

theorem argmaxBy_mem {α : Type} {f : α → ℚ} {l : List α} {b : α}
    (h : argmaxBy f l = some b) : b ∈ l := by
  cases l with
  | nil => simp [argmaxBy] at h
  | cons x xs =>
    simp only [argmaxBy, Option.some.injEq] at h
    exact h ▸ argmax_foldl_mem f xs x

theorem argmaxBy_le {α : Type} {f : α → ℚ} {l : List α} {b : α}
    (h : argmaxBy f l = some b) : ∀ a ∈ l, f a ≤ f b := by
  cases l with
  | nil => intro a ha; cases ha
  | cons x xs =>
    simp only [argmaxBy, Option.some.injEq] at h
    intro a ha
    rcases List.mem_cons.mp ha with ha | ha
    · exact h ▸ argmax_foldl_le f xs x a (Or.inl ha)
    · exact h ▸ argmax_foldl_le f xs x a (Or.inr ha)

theorem argmaxBy_eq_none {α : Type} {f : α → ℚ} {l : List α} :
    argmaxBy f l = none ↔ l = [] := by
  cases l with
  | nil => simp [argmaxBy]
  | cons x xs => simp [argmaxBy]

theorem argmaxBy_of_head_max {α : Type} {f : α → ℚ} {x : α} {xs : List α}
    (h : ∀ a ∈ xs, f a ≤ f x) : argmaxBy f (x :: xs) = some x := by
  simp only [argmaxBy, Option.some.injEq]
  induction xs with
  | nil => rfl
  | cons y ys ih =>
    have hy : ¬ f x < f y := not_lt.mpr (h y (List.mem_cons_self _ _))
    simp only [List.foldl_cons, if_neg hy]
    exact ih (fun a ha => h a (List.mem_cons_of_mem _ ha))

/-- Min-max normalisation of a score array.  Mirrors mmr_reranker.py
lines 44-51 and the identical inline pattern at recommender.py lines
416-419 and 428-431: `range = max - min if max > min else 1.0`,
`normalized = (scores - min) / range`. -/
def minmaxNormalize (scores : List ℚ) : List ℚ :=
  scores.map (fun s => (s - listMin scores) /
    (if listMin scores < listMax scores then listMax scores - listMin scores else 1))

/-- The MMR objective for one remaining candidate, given the list of
already-selected candidate positions.  Mirrors mmr_reranker.py lines
64-79: relevance is `ns idx`; the diversity penalty is the maximum
similarity to any already-selected item, 0 when nothing is selected;
`mmr_score = lambda * relevance - (1 - lambda) * max_sim_to_selected`.
`sim i j` abstracts `cosine_similarity` of the unit-normalised candidate
vectors `i` and `j` (lines 39-42 and 72). -/
def mmrScore (lam : ℚ) (sim : ℕ → ℕ → ℚ) (ns : ℕ → ℚ) (selected : List ℕ) (idx : ℕ) : ℚ :=
  lam * ns idx - (1 - lam) * (if selected = [] then 0 else listMax (selected.map (sim idx)))

/-- The MMR selection loop (mmr_reranker.py lines 53-89), returning the
newly selected candidate positions in selection order.  `selected` is the
list of positions chosen so far (the Python `selected_indices`),
`remaining` the Python `remaining_indices`;  each iteration takes the
first-occurrence argmax of the MMR score over `remaining`, appends it to
`selected` and removes it from `remaining`. -/
def mmrLoop (lam : ℚ) (sim : ℕ → ℕ → ℚ) (ns : ℕ → ℚ) : ℕ → List ℕ → List ℕ → List ℕ
  | 0, _, _ => []
  | fuel + 1, selected, remaining =>
    match argmaxBy (mmrScore lam sim ns selected) remaining with
    | none => []
    | some best => best :: mmrLoop lam sim ns fuel (selected ++ [best]) (remaining.erase best)

/-- Shallow embedding of `mmr_rerank` (mmr_reranker.py lines 9-99).
`sim i j` abstracts the cosine similarity between the unit-normalised
candidate vectors at positions `i` and `j`; every other step (the small
pool early return, min-max score normalisation, the greedy loop, and the
final pairing with normalised scores) is embedded exactly. -/
def mmr_rerank (sim : ℕ → ℕ → ℚ) (candidate_ids : List String)
    (similarity_scores : List ℚ) (top_m : ℕ) (lambda_diversity : ℚ) :
    List (String × ℚ) :=
  if candidate_ids.length = 0 then []
  else if candidate_ids.length ≤ top_m then
    candidate_ids.zip similarity_scores
  else
    (mmrLoop lambda_diversity sim
        (fun i => (if 0 < similarity_scores.length then minmaxNormalize similarity_scores
          else similarity_scores).getD i 0)
        (min top_m candidate_ids.length) [] (List.range candidate_ids.length)).map
      (fun idx => (candidate_ids.getD idx "",
        (if 0 < similarity_scores.length then minmaxNormalize similarity_scores
          else similarity_scores).getD idx 0))

theorem norm_guard_eq (l : List ℚ) :
    (if 0 < l.length then minmaxNormalize l else l) = minmaxNormalize l := by
  cases l with
  | nil => simp [minmaxNormalize]
  | cons x xs => rw [if_pos (by simp)]

theorem mmrLoop_length (lam : ℚ) (sim : ℕ → ℕ → ℚ) (ns : ℕ → ℚ) :
    ∀ (fuel : ℕ) (sel rem : List ℕ),
      (mmrLoop lam sim ns fuel sel rem).length = min fuel rem.length := by
  intro fuel
  induction fuel with
  | zero => intro sel rem; simp [mmrLoop]
  | succ n ih =>
    intro sel rem
    cases h : argmaxBy (mmrScore lam sim ns sel) rem with
    | none =>
      have hrem : rem = [] := argmaxBy_eq_none.mp h
      subst hrem
      simp [mmrLoop, h]
    | some b =>
      have hb : b ∈ rem := argmaxBy_mem h
      have hlen : (rem.erase b).length = rem.length - 1 := List.length_erase_of_mem hb
      have hpos : 0 < rem.length := List.length_pos.mpr (List.ne_nil_of_mem hb)
      simp only [mmrLoop, h, List.length_cons, ih]
      omega

theorem mmrLoop_subset (lam : ℚ) (sim : ℕ → ℕ → ℚ) (ns : ℕ → ℚ) :
    ∀ (fuel : ℕ) (sel rem : List ℕ), ∀ a ∈ mmrLoop lam sim ns fuel sel rem, a ∈ rem := by
  intro fuel
  induction fuel with
  | zero => intro sel rem a ha; simp [mmrLoop] at ha
  | succ n ih =>
    intro sel rem a ha
    cases h : argmaxBy (mmrScore lam sim ns sel) rem with
    | none => simp only [mmrLoop, h] at ha; cases ha
    | some b =>
      simp only [mmrLoop, h] at ha
      rcases List.mem_cons.mp ha with ha | ha
      · exact ha ▸ argmaxBy_mem h
      · exact List.mem_of_mem_erase (ih (sel ++ [b]) (rem.erase b) a ha)

/-- The greedy MMR selection process, transcribed from the claimed
algorithm: starting from already-selected positions `sel` and remaining
positions `rem`, with `fuel` steps left, each step picks a remaining
candidate whose `mmrScore` (relative to the current selection) is
maximal, moves it from remaining to selected, and stops when `fuel` runs
out or the candidates are exhausted.  The final argument lists the
positions picked, in order. -/
inductive GreedyMMR (lam : ℚ) (sim : ℕ → ℕ → ℚ) (ns : ℕ → ℚ) :
    ℕ → List ℕ → List ℕ → List ℕ → Prop where
  | done (sel rem : List ℕ) : GreedyMMR lam sim ns 0 sel rem []
  | exhausted (fuel : ℕ) (sel : List ℕ) : GreedyMMR lam sim ns fuel sel [] []
  | step (fuel : ℕ) (sel rem : List ℕ) (b : ℕ) (out : List ℕ)
      (hmem : b ∈ rem)
      (hbest : ∀ i ∈ rem, mmrScore lam sim ns sel i ≤ mmrScore lam sim ns sel b)
      (hrest : GreedyMMR lam sim ns fuel (sel ++ [b]) (rem.erase b) out) :
      GreedyMMR lam sim ns (fuel + 1) sel rem (b :: out)

theorem mmrLoop_greedy (lam : ℚ) (sim : ℕ → ℕ → ℚ) (ns : ℕ → ℚ) :
    ∀ (fuel : ℕ) (sel rem : List ℕ),
      GreedyMMR lam sim ns fuel sel rem (mmrLoop lam sim ns fuel sel rem) := by
  intro fuel
  induction fuel with
  | zero =>
    intro sel rem
    exact GreedyMMR.done sel rem
  | succ n ih =>
    intro sel rem
    cases h : argmaxBy (mmrScore lam sim ns sel) rem with
    | none =>
      have hrem : rem = [] := argmaxBy_eq_none.mp h
      subst hrem
      simp only [mmrLoop, h]
      exact GreedyMMR.exhausted (n + 1) sel
    | some b =>
      simp only [mmrLoop, h]
      exact GreedyMMR.step n sel rem b _ (argmaxBy_mem h) (argmaxBy_le h)
        (ih (sel ++ [b]) (rem.erase b))

/-- C1: on a pool strictly larger than `top_m`, `mmr_rerank` builds its
output by the greedy MMR process: at each step the candidate with the
highest `mmr_score = lambda * relevance - (1 - lambda) * (max cosine
similarity to already-selected vectors, 0 when nothing is selected)` is
moved from remaining to selected, until `top_m` items are chosen or the
candidates run out; the returned pairs follow that selection order. -/
theorem mmr_rerank_is_greedy (sim : ℕ → ℕ → ℚ) (candidate_ids : List String)
    (similarity_scores : List ℚ) (top_m : ℕ) (lam : ℚ)
    (h : top_m < candidate_ids.length) :
    ∃ out : List ℕ,
      GreedyMMR lam sim (fun i => (minmaxNormalize similarity_scores).getD i 0) top_m []
        (List.range candidate_ids.length) out ∧
      out.length = top_m ∧
      mmr_rerank sim candidate_ids similarity_scores top_m lam =
        out.map (fun idx =>
          (candidate_ids.getD idx "", (minmaxNormalize similarity_scores).getD idx 0)) := by
  have h0 : ¬ candidate_ids.length = 0 := by omega
  have h1 : ¬ candidate_ids.length ≤ top_m := not_le.mpr h
  have hmin : min top_m candidate_ids.length = top_m := min_eq_left (le_of_lt h)
  refine ⟨mmrLoop lam sim (fun i => (minmaxNormalize similarity_scores).getD i 0) top_m []
    (List.range candidate_ids.length), ?_, ?_, ?_⟩
  · exact mmrLoop_greedy lam sim _ top_m [] (List.range candidate_ids.length)
  · rw [mmrLoop_length, List.length_range, hmin]
  · simp only [mmr_rerank, if_neg h0, if_neg h1, norm_guard_eq, hmin]

theorem mmrScore_lambda_one (sim : ℕ → ℕ → ℚ) (ns : ℕ → ℚ) (sel : List ℕ) (idx : ℕ) :
    mmrScore 1 sim ns sel idx = ns idx := by
  simp [mmrScore]

theorem mmrLoop_lambda_one (sim : ℕ → ℕ → ℚ) (ns : ℕ → ℚ) :
    ∀ (fuel : ℕ) (sel rem : List ℕ), rem.Pairwise (fun i j => ns j ≤ ns i) →
      mmrLoop 1 sim ns fuel sel rem = rem.take fuel := by
  intro fuel
  induction fuel with
  | zero => intro sel rem _; simp [mmrLoop]
  | succ n ih =>
    intro sel rem hp
    cases rem with
    | nil => simp [mmrLoop, argmaxBy]
    | cons r rs =>
      have hhead : ∀ a ∈ rs, mmrScore 1 sim ns sel a ≤ mmrScore 1 sim ns sel r := by
        intro a ha
        rw [mmrScore_lambda_one, mmrScore_lambda_one]
        exact (List.pairwise_cons.mp hp).1 a ha
      have harg : argmaxBy (mmrScore 1 sim ns sel) (r :: rs) = some r :=
        argmaxBy_of_head_max hhead
      simp only [mmrLoop, harg, List.erase_cons_head, List.take_succ_cons]
      rw [ih (sel ++ [r]) rs (List.pairwise_cons.mp hp).2]

/-- The content strategy result (recommender.py line 370; the same
expression appears as the fallback at lines 402, 494 and 498): the first
k candidates paired with their first k raw scores, in pool order. -/
def contentTopK (candidates : List String) (scores : List ℚ) (k : ℕ) : List (String × ℚ) :=
  (candidates.take k).zip (scores.take k)

theorem map_getD_range_eq_take {α : Type} (d : α) (l : List α) (k : ℕ) (hk : k ≤ l.length) :
    (List.range k).map (fun i => l.getD i d) = l.take k := by
  apply List.ext_getElem
  · simp only [List.length_map, List.length_range, List.length_take]
    omega
  · intro i h1 h2
    simp only [List.length_map, List.length_range] at h1
    rw [List.getElem_map, List.getElem_range, List.getElem_take,
      List.getD_eq_getElem l d (by omega)]

theorem pairwise_range_norm (scores : List ℚ) (n : ℕ) (hn : n ≤ scores.length)
    (hsorted : scores.Sorted (fun a b => b ≤ a)) :
    (List.range n).Pairwise
      (fun i j => (minmaxNormalize scores).getD j 0 ≤ (minmaxNormalize scores).getD i 0) := by
  have hpl := List.pairwise_lt_range n
  refine hpl.imp_of_mem ?_
  intro i j hi hj hij
  have hi' : i < scores.length := lt_of_lt_of_le (List.mem_range.mp hi) hn
  have hj' : j < scores.length := lt_of_lt_of_le (List.mem_range.mp hj) hn
  have hrel : scores[j] ≤ scores[i] :=
    List.pairwise_iff_getElem.mp hsorted i j hi' hj' hij
  have hilen : i < (minmaxNormalize scores).length := by
    simp [minmaxNormalize]; omega
  have hjlen : j < (minmaxNormalize scores).length := by
    simp [minmaxNormalize]; omega
  rw [List.getD_eq_getElem _ _ hilen, List.getD_eq_getElem _ _ hjlen]
  simp only [minmaxNormalize, List.getElem_map]
  have hr : (0 : ℚ) < if listMin scores < listMax scores then listMax scores - listMin scores else 1 := by
    by_cases hc : listMin scores < listMax scores
    · rw [if_pos hc]; exact sub_pos.mpr hc
    · rw [if_neg hc]; exact one_pos
  exact (div_le_div_iff_of_pos_right hr).mpr (sub_le_sub_right hrel _)

/-- C2: with `lambda_diversity = 1.0` the MMR objective degenerates to
the (normalised) relevance, so on a candidate pool listed in descending
relevance order `mmr_rerank` selects IDs in exactly the pool order, which
is the ID order the content strategy returns on the same pool, up to the
`top_m` cutoff. -/
theorem mmr_rerank_lambda_one_matches_content (sim : ℕ → ℕ → ℚ)
    (candidate_ids : List String) (similarity_scores : List ℚ) (top_m : ℕ)
    (hlen : candidate_ids.length = similarity_scores.length)
    (hsorted : similarity_scores.Sorted (fun a b => b ≤ a)) :
    (mmr_rerank sim candidate_ids similarity_scores top_m 1).map Prod.fst =
      (contentTopK candidate_ids similarity_scores top_m).map Prod.fst := by
  have hrhs : (contentTopK candidate_ids similarity_scores top_m).map Prod.fst =
      candidate_ids.take top_m := by
    apply List.map_fst_zip
    simp only [List.length_take]
    omega
  rw [hrhs]
  by_cases h0 : candidate_ids.length = 0
  · have : candidate_ids = [] := List.length_eq_zero.mp h0
    subst this
    simp [mmr_rerank]
  by_cases h1 : candidate_ids.length ≤ top_m
  · rw [mmr_rerank, if_neg h0, if_pos h1, List.map_fst_zip _ _ (by omega),
      List.take_of_length_le h1]
  · have hlt : top_m < candidate_ids.length := not_le.mp h1
    have hmin : min top_m candidate_ids.length = top_m := min_eq_left (le_of_lt hlt)
    rw [mmr_rerank, if_neg h0, if_neg h1]
    simp only [norm_guard_eq, hmin, List.map_map]
    rw [mmrLoop_lambda_one _ _ top_m []
      (List.range candidate_ids.length)
      (pairwise_range_norm similarity_scores candidate_ids.length (le_of_eq hlen) hsorted),
      List.take_range, hmin]
    exact map_getD_range_eq_take "" candidate_ids top_m (le_of_lt hlt)

/-- C10: the two branches of `mmr_rerank` return scores on different
scales.  When the pool is at most `top_m`, the input pairs come back
unchanged in input order with raw scores; when the pool exceeds `top_m`,
every returned pair carries the candidate's min-max-normalised input
relevance `(score - min) / (max - min)` (range replaced by 1 when the
pool is score-degenerate), not the raw score and not the MMR objective. -/
theorem mmr_rerank_score_scale (sim : ℕ → ℕ → ℚ) (candidate_ids : List String)
    (similarity_scores : List ℚ) (top_m : ℕ) (lam : ℚ)
    (hlen : candidate_ids.length = similarity_scores.length) :
    (candidate_ids.length ≤ top_m →
      mmr_rerank sim candidate_ids similarity_scores top_m lam =
        candidate_ids.zip similarity_scores) ∧
    (top_m < candidate_ids.length →
      ∀ p ∈ mmr_rerank sim candidate_ids similarity_scores top_m lam,
        ∃ i, i < candidate_ids.length ∧ p.1 = candidate_ids.getD i "" ∧
          p.2 = (similarity_scores.getD i 0 - listMin similarity_scores) /
            (if listMin similarity_scores < listMax similarity_scores then
              listMax similarity_scores - listMin similarity_scores else 1)) := by
  constructor
  · intro hle
    by_cases h0 : candidate_ids.length = 0
    · have : candidate_ids = [] := List.length_eq_zero.mp h0
      subst this
      simp [mmr_rerank]
    · rw [mmr_rerank, if_neg h0, if_pos hle]
  · intro hlt p hp
    have h0 : ¬ candidate_ids.length = 0 := by omega
    rw [mmr_rerank, if_neg h0, if_neg (not_le.mpr hlt)] at hp
    simp only [norm_guard_eq, List.mem_map] at hp
    obtain ⟨idx, hidx, hpe⟩ := hp
    have hidxlt : idx < candidate_ids.length := by
      have := mmrLoop_subset lam sim _ _ _ _ idx hidx
      exact List.mem_range.mp this
    refine ⟨idx, hidxlt, ?_, ?_⟩
    · rw [← hpe]
    · rw [← hpe]
      have hslt : idx < similarity_scores.length := by omega
      have hmlt : idx < (minmaxNormalize similarity_scores).length := by
        simp [minmaxNormalize]; omega
      rw [List.getD_eq_getElem _ _ hmlt, List.getD_eq_getElem _ _ hslt]
      simp [minmaxNormalize]

/-- Descending order on (id, score) pairs by the score component, the
comparison behind the popularity sort (recommender.py line 476). -/
def scoreGE (a b : String × ℚ) : Prop := b.2 ≤ a.2

instance : DecidableRel scoreGE := fun a b => inferInstanceAs (Decidable (b.2 ≤ a.2))

instance : IsTotal (String × ℚ) scoreGE := ⟨fun a b => le_total b.2 a.2⟩

instance : IsTrans (String × ℚ) scoreGE := ⟨fun _ _ _ h1 h2 => le_trans h2 h1⟩

/-- Descending order on (id, row, score) triples by the score component,
the comparison behind `np.argsort(-ensemble_scores)`
(recommender.py line 440). -/
def scoreGE3 (a b : String × ℕ × ℚ) : Prop := b.2.2 ≤ a.2.2

instance : DecidableRel scoreGE3 := fun a b => inferInstanceAs (Decidable (b.2.2 ≤ a.2.2))

instance : IsTotal (String × ℕ × ℚ) scoreGE3 := ⟨fun a b => le_total b.2.2 a.2.2⟩

instance : IsTrans (String × ℕ × ℚ) scoreGE3 := ⟨fun _ _ _ h1 h2 => le_trans h2 h1⟩

theorem length_minmaxNormalize (l : List ℚ) : (minmaxNormalize l).length = l.length := by
  simp [minmaxNormalize]

/-- The ensemble blend of recommender.py lines 414-437: min-max normalise
the content scores over the pool; min-max normalise the collaborative
scores unless their maximum is not positive (in which case they are used
as-is); blend entrywise as `0.6 * content + 0.4 * collaborative`. -/
def ensembleScores (contentScores collabVals : List ℚ) : List ℚ :=
  List.zipWith (fun c l => (3 / 5) * c + (2 / 5) * l)
    (minmaxNormalize contentScores)
    (if 0 < listMax collabVals then minmaxNormalize collabVals else collabVals)

/-- The ensemble combine-and-sort step (recommender.py lines 414-445):
look up each candidate's collaborative score (0 when absent, matching
`collab_scores_dict.get(cid, 0.0)`), blend with `ensembleScores`, and
reorder the (id, row, score) triples by descending blended score.
`np.argsort`'s tie order is unspecified; a stable sort models it. -/
def ensembleStrategyCore (cands : List (String × ℕ × ℚ))
    (collabDict : List (String × ℚ)) : List (String × ℕ × ℚ) :=
  List.insertionSort scoreGE3
    (List.zipWith (fun c s => (c.1, c.2.1, s)) cands
      (ensembleScores (cands.map (fun c => c.2.2))
        (cands.map (fun c => (collabDict.lookup c.1).getD 0))))

/-- The ensemble strategy output (recommender.py lines 447-451): the
blend-sorted candidates as (id, blended score) pairs, cut to k. -/
def ensembleTopK (cands : List (String × ℕ × ℚ))
    (collabDict : List (String × ℚ)) (k : ℕ) : List (String × ℚ) :=
  ((ensembleStrategyCore cands collabDict).map (fun t => (t.1, t.2.2))).take k

theorem length_ensembleScores (a b : List ℚ) (h : a.length = b.length) :
    (ensembleScores a b).length = a.length := by
  unfold ensembleScores
  by_cases hc : 0 < listMax b
  · rw [if_pos hc]
    simp [length_minmaxNormalize, h]
  · rw [if_neg hc]
    simp [length_minmaxNormalize, h]

theorem collab_guard_eq (l : List ℚ) (h : ∀ v ∈ l, 0 ≤ v) :
    (if 0 < listMax l then minmaxNormalize l else l) = minmaxNormalize l := by
  by_cases hc : 0 < listMax l
  · rw [if_pos hc]
  · rw [if_neg hc]
    rcases eq_or_ne l [] with hl | hl
    · subst hl; simp [minmaxNormalize]
    · have hall : ∀ v ∈ l, v = 0 := fun v hv =>
        le_antisymm (le_trans (le_listMax hv) (not_lt.mp hc)) (h v hv)
      have hmn : listMin l = 0 := hall _ (listMin_mem hl)
      have hmx : listMax l = 0 := hall _ (listMax_mem hl)
      symm
      unfold minmaxNormalize
      have hpt : ∀ v ∈ l, (v - listMin l) /
          (if listMin l < listMax l then listMax l - listMin l else 1) = id v := by
        intro v hv
        rw [hall v hv, hmn, hmx, id]
        norm_num
      rw [List.map_congr_left hpt, List.map_id]

theorem ensemble_blend_parts (cands : List (String × ℕ × ℚ))
    (collabDict : List (String × ℚ)) (k : ℕ)
    (hnn : ∀ c ∈ cands, (0 : ℚ) ≤ (collabDict.lookup c.1).getD 0) :
    (ensembleTopK cands collabDict k).length ≤ k ∧
    ((ensembleTopK cands collabDict k).map Prod.snd).Sorted (fun a b => b ≤ a) ∧
    (∀ p ∈ ensembleTopK cands collabDict k,
      ∃ i, i < cands.length ∧ p.1 = (cands.getD i ("", 0, 0)).1 ∧
        p.2 = (3 / 5) * (minmaxNormalize (cands.map (fun c => c.2.2))).getD i 0
            + (2 / 5) * (minmaxNormalize
                (cands.map (fun c => (collabDict.lookup c.1).getD 0))).getD i 0) := by
  have hvalsnn : ∀ v ∈ cands.map (fun c => (collabDict.lookup c.1).getD 0), (0 : ℚ) ≤ v := by
    intro v hv
    obtain ⟨c, hc, hcv⟩ := List.mem_map.mp hv
    exact hcv ▸ hnn c hc
  have hsorted : List.Sorted scoreGE3 (ensembleStrategyCore cands collabDict) :=
    List.sorted_insertionSort scoreGE3 _
  refine ⟨?_, ?_, ?_⟩
  · unfold ensembleTopK
    rw [List.length_take]
    exact min_le_left _ _
  · unfold ensembleTopK
    have h1 : List.Pairwise (fun a b : String × ℚ => b.2 ≤ a.2)
        ((ensembleStrategyCore cands collabDict).map (fun t => (t.1, t.2.2))) :=
      List.pairwise_map.mpr hsorted
    have h2 := h1.sublist (List.take_sublist k _)
    exact List.pairwise_map.mpr h2
  · intro p hp
    unfold ensembleTopK at hp
    obtain ⟨t, ht, hpt⟩ := List.mem_map.mp (List.mem_of_mem_take hp)
    have htz := ((List.perm_insertionSort scoreGE3 _).mem_iff).mp ht
    have hmain : ensembleScores (cands.map (fun c => c.2.2))
        (cands.map (fun c => (collabDict.lookup c.1).getD 0)) =
        List.zipWith (fun c l => (3 / 5) * c + (2 / 5) * l)
          (minmaxNormalize (cands.map (fun c => c.2.2)))
          (minmaxNormalize (cands.map (fun c => (collabDict.lookup c.1).getD 0))) := by
      unfold ensembleScores
      rw [collab_guard_eq _ hvalsnn]
    rw [hmain] at htz
    obtain ⟨i, hi, hti⟩ := List.mem_iff_getElem.mp htz
    have hic : i < cands.length := by
      rw [List.length_zipWith, List.length_zipWith, length_minmaxNormalize,
        length_minmaxNormalize, List.length_map, List.length_map, min_self, min_self] at hi
      exact hi
    have hcn : i < (minmaxNormalize (cands.map (fun c => c.2.2))).length := by
      rw [length_minmaxNormalize, List.length_map]
      exact hic
    have hln : i < (minmaxNormalize
        (cands.map (fun c => (collabDict.lookup c.1).getD 0))).length := by
      rw [length_minmaxNormalize, List.length_map]
      exact hic
    refine ⟨i, hic, ?_, ?_⟩
    · rw [← hpt, ← hti, List.getElem_zipWith,
        List.getD_eq_getElem cands ("", 0, 0) hic]
    · rw [← hpt, ← hti, List.getElem_zipWith, List.getElem_zipWith,
        List.getD_eq_getElem _ _ hcn, List.getD_eq_getElem _ _ hln]

/-- Sum of column `idx` of a users-by-routes interaction matrix: the
`query_vector.sum()` test of recommender.py line 279 (how many users
interacted with the query route, for a binary matrix). -/
def colSum (m : List (List ℚ)) (idx : ℕ) : ℚ :=
  (m.map (fun row => row.getD idx 0)).sum

/-- Shallow embedding of `Recommender.get_collaborative_scores`
(recommender.py lines 242-308).  `matrix` is `user_route_matrix`,
`routeToIdx` is `route_to_matrix_idx`; `simF r` abstracts the sklearn
cosine similarity between the query route's user-interaction column and
the column of matrix index `r` (line 291-294).  The Redis cache layer is
identity on the computed value (a hit returns what a former miss stored),
so it is not modelled.  Guard order follows the source: missing matrix
or index map, then unknown query id, then a query column summing to 0,
each yield the empty mapping; otherwise every other route is paired with
its similarity. -/
def get_collaborative_scores (matrix : Option (List (List ℚ)))
    (routeToIdx : Option (List (String × ℕ))) (simF : ℕ → ℚ)
    (query_route_id : String) : List (String × ℚ) :=
  match matrix, routeToIdx with
  | some m, some rti =>
    match rti.lookup query_route_id with
    | none => []
    | some qidx =>
      if colSum m qidx = 0 then []
      else rti.filterMap (fun p =>
        if p.1 = query_route_id then none else some (p.1, simF p.2))
  | _, _ => []

/-- The five strategy literals of `RecommenderStrategy`
(recommender.py line 16). -/
inductive RecommenderStrategy : Type where
  | content
  | content_mmr
  | ensemble
  | ensemble_mmr
  | popularity
deriving DecidableEq

/-- The string literal a strategy value stands for. -/
def strategyName : RecommenderStrategy → String
  | .content => "content"
  | .content_mmr => "content_mmr"
  | .ensemble => "ensemble"
  | .ensemble_mmr => "ensemble_mmr"
  | .popularity => "popularity"

/-- Whether the characters of the pattern "mmr" occur contiguously in a
character list: the substring test behind Python's `"mmr" in strategy`
(recommender.py line 346). -/
def containsMMRChars : List Char → Bool
  | [] => false
  | c :: rest => (['m', 'm', 'r'].isPrefixOf (c :: rest)) || containsMMRChars rest

/-- Python's `"mmr" in strategy` on a strategy string. -/
def containsMMR (s : String) : Bool := containsMMRChars s.data

/-- The candidate pool size of recommender.py line 346:
`k * 10 if "mmr" in strategy else k + 1`. -/
def poolSize (strategy : RecommenderStrategy) (k : ℕ) : ℕ :=
  if containsMMR (strategyName strategy) then k * 10 else k + 1

/-- Rational dot product, the exact inner product FAISS's `IndexFlatIP`
scores stored vectors with. -/
def dotQ (a b : List ℚ) : ℚ := (List.zipWith (fun x y => x * y) a b).sum

/-- Exact nearest-neighbour search of a flat inner-product index
(`index.search(x, n)`): score every stored row against the query by
inner product, order by descending score (FAISS returns hits sorted
best-first; its tie order is unspecified, modelled as a stable sort by
row order), return at most n (row, score) pairs.  FAISS pads short
result sets with index -1, which the caller skips; returning fewer
pairs models the same thing. -/
def faissTopK (index : List (List ℚ)) (q : List ℚ) (n : ℕ) : List (ℕ × ℚ) :=
  (List.insertionSort (fun a b : ℕ × ℚ => b.2 ≤ a.2)
    ((List.range index.length).map (fun j => (j, dotQ q (index.getD j []))))).take n

instance : DecidableRel (fun a b : ℕ × ℚ => b.2 ≤ a.2) :=
  fun a b => inferInstanceAs (Decidable (b.2 ≤ a.2))

/-- First index of `aid` in `idmap`:
`int(np.where(self.idmap == activity_id)[0][0])` (recommender.py line
341), `none` when absent (the `IndexError` path of line 342). -/
def findRow (aid : String) : List String → Option ℕ
  | [] => none
  | s :: rest => if s = aid then some 0 else (findRow aid rest).map (fun r => r + 1)

/-- The mutable recommender state relevant to search: the FAISS index
rows, the parallel `idmap`, the pre-normalisation `feature_vectors`
(only their pairwise cosine similarities matter, which enter through
the `vecSim` parameter of `search_by_activity`), the popularity table
and the collaborative-filtering artifacts. -/
structure RecState : Type where
  index : List (List ℚ)
  idmap : List String
  popularity_scores : List (String × ℚ)
  user_route_matrix : Option (List (List ℚ))
  route_to_matrix_idx : Option (List (String × ℕ))

/-- The filtered candidate pool of recommender.py lines 350-361: search
the index with the query row's own stored vector, drop hits whose mapped
id equals the query id, and keep parallel (id, row, score) triples. -/
def candidateTriples (st : RecState) (activity_id : String) (row : ℕ) (n : ℕ) :
    List (String × ℕ × ℚ) :=
  (faissTopK st.index (st.index.getD row []) n).filterMap (fun h =>
    if st.idmap.getD h.1 "" = activity_id then none
    else some (st.idmap.getD h.1 "", h.1, h.2))

/-- `min_pop` of recommender.py line 481: the minimum popularity over the
whole sorted pool, taken as 0 when the pool has at most one entry. -/
def popMin (sorted : List (String × ℚ)) : ℚ :=
  if 1 < sorted.length then listMin (sorted.map Prod.snd) else 0

/-- `pop_range` of recommender.py line 482:
`max_pop - min_pop if max_pop > min_pop else 1.0`. -/
def popRange (sorted : List (String × ℚ)) : ℚ :=
  if popMin sorted < listMax (sorted.map Prod.snd) then
    listMax (sorted.map Prod.snd) - popMin sorted
  else 1

/-- The `if pop_candidates:` body of recommender.py lines 479-491: the
top-k slice of the popularity-sorted pool, min-max normalised with
`popMin`/`popRange` computed over the whole pool; an empty pool yields
the (empty) plain slice of line 491. -/
def popNormalize (sorted : List (String × ℚ)) (k : ℕ) : List (String × ℚ) :=
  if sorted = [] then sorted.take k
  else (sorted.take k).map (fun p => (p.1, (p.2 - popMin sorted) / popRange sorted))

/-- The popularity strategy branch (recommender.py lines 470-494): with
no popularity table fall back to the content result; otherwise pair each
candidate with its popularity score (0 when missing, matching
`popularity_scores.get(cid, 0)`), sort descending by popularity
(Python's stable `list.sort(key=..., reverse=True)`), then normalise
the top-k slice. -/
def popularityTopK (pop : List (String × ℚ)) (candNames : List String)
    (candScores : List ℚ) (k : ℕ) : List (String × ℚ) :=
  if pop = [] then contentTopK candNames candScores k
  else
    popNormalize
      (List.insertionSort scoreGE (candNames.map (fun cid => (cid, (pop.lookup cid).getD 0)))) k

/-- Apply `mmr_rerank` to a list of (id, row, score) candidate triples:
the ids and scores are passed positionally, and the candidate feature
vectors enter only through `vecSim` on their stored rows (recommender.py
lines 374-389, 403-412 and 452-468 all follow this shape). -/
def mmrOnTriples (vecSim : ℕ → ℕ → ℚ) (ts : List (String × ℕ × ℚ)) (k : ℕ) (lam : ℚ) :
    List (String × ℚ) :=
  mmr_rerank (fun a b => vecSim (ts.getD a ("", 0, 0)).2.1 (ts.getD b ("", 0, 0)).2.1)
    (ts.map (fun t => t.1)) (ts.map (fun t => t.2.2)) k lam

/-- The strategy dispatch of `search_by_activity` (recommender.py lines
363-498), applied to the filtered candidate pool `cands`:
content returns the raw top-k; content_mmr reranks the pool with MMR;
ensemble and ensemble_mmr fall back to the corresponding
content/content_mmr result when the collaborative mapping is empty and
otherwise blend-and-sort (ensemble_mmr additionally MMR-reranks the
blended order); popularity reorders by the popularity table. -/
def strategyDispatch (st : RecState) (vecSim : ℕ → ℕ → ℚ) (collabSimF : ℕ → ℚ)
    (activity_id : String) (k : ℕ) (strategy : RecommenderStrategy) (lam : ℚ)
    (cands : List (String × ℕ × ℚ)) : List (String × ℚ) :=
  match strategy with
  | .content => contentTopK (cands.map (fun c => c.1)) (cands.map (fun c => c.2.2)) k
  | .content_mmr => mmrOnTriples vecSim cands k lam
  | .ensemble =>
    if get_collaborative_scores st.user_route_matrix st.route_to_matrix_idx collabSimF
        activity_id = [] then
      contentTopK (cands.map (fun c => c.1)) (cands.map (fun c => c.2.2)) k
    else
      ensembleTopK cands
        (get_collaborative_scores st.user_route_matrix st.route_to_matrix_idx collabSimF
          activity_id) k
  | .ensemble_mmr =>
    if get_collaborative_scores st.user_route_matrix st.route_to_matrix_idx collabSimF
        activity_id = [] then
      mmrOnTriples vecSim cands k lam
    else
      mmrOnTriples vecSim
        (ensembleStrategyCore cands
          (get_collaborative_scores st.user_route_matrix st.route_to_matrix_idx collabSimF
            activity_id)) k lam
  | .popularity =>
    popularityTopK st.popularity_scores (cands.map (fun c => c.1))
      (cands.map (fun c => c.2.2)) k

/-- Shallow embedding of `Recommender.search_by_activity`
(recommender.py lines 310-498).  `vecSim i j` abstracts the cosine
similarity between `feature_vectors` rows i and j (floating point, used
only inside MMR); `collabSimF` abstracts the collaborative column
similarities fed to `get_collaborative_scores`.  Everything else —
row lookup, pool sizing, self-exclusion, and all five strategy
branches with their fallbacks — is embedded exactly. -/
def search_by_activity (st : RecState) (vecSim : ℕ → ℕ → ℚ) (collabSimF : ℕ → ℚ)
    (activity_id : String) (k : ℕ) (strategy : RecommenderStrategy) (lam : ℚ) :
    List (String × ℚ) :=
  match findRow activity_id st.idmap with
  | none => []
  | some row =>
    strategyDispatch st vecSim collabSimF activity_id k strategy lam
      (candidateTriples st activity_id row (poolSize strategy k))

/-- Shallow embedding of `Recommender.search_by_vector` (recommender.py
lines 500-511).  `nrm` abstracts `faiss.normalize_L2` on the query (an
irrational scaling in general); hits are mapped through `idmap`. -/
def search_by_vector (st : RecState) (nrm : List ℚ → List ℚ) (vec : List ℚ) (k : ℕ) :
    List (String × ℚ) :=
  (faissTopK st.index (nrm vec) k).map (fun h => (st.idmap.getD h.1 "", h.2))

/-- The persisted artifact pair of `Recommender._save` (recommender.py
lines 42-45): the serialised FAISS index and the idmap array.  (The
scaler mean is also written but never read back, and search does not
use it.) -/
def saveArtifacts (st : RecState) : List (List ℚ) × List String :=
  (st.index, st.idmap)

/-- `Recommender._load` (recommender.py lines 47-53) on a fresh
recommender: the index and idmap are replaced by the artifact contents;
every other field keeps whatever the fresh object held. -/
def loadArtifacts (fresh : RecState) (art : List (List ℚ) × List String) : RecState :=
  { fresh with index := art.1, idmap := art.2 }

/-- `Recommender.rebuild_from_csv` (recommender.py lines 55-72) reduced
to the (index, idmap) pair it installs: `load_csv_features` returns one
feature row per CSV record (`scaler` abstracts its per-row
standardisation, `nrm` the cosine-mode `faiss.normalize_L2`), the index
is bulk-added from those rows, and idmap is the parallel id column. -/
def rebuild_from_csv (nrm scaler : List ℚ → List ℚ) (df : List (String × List ℚ)) :
    List (List ℚ) × List String :=
  (df.map (fun r => nrm (scaler r.2)), df.map (fun r => r.1))

/-- The idmap construction of `Recommender.load_trained_model`
(recommender.py lines 110-112): an array of `len(id_to_idx)` slots,
then `idmap[idx] = route_id` for every mapping entry (an out-of-range
index would raise and abort the whole load). -/
def buildIdmap (idToIdx : List (String × ℕ)) : List String :=
  idToIdx.foldl (fun acc p => acc.set p.2 p.1) (List.replicate idToIdx.length "")

/-- `Recommender.load_trained_model` (recommender.py lines 74-217)
reduced to the (index, idmap) pair it installs: the index is bulk-added
from the pre-trained embedding rows (`nrm` abstracts the cosine-mode
normalisation), the idmap comes from the route_id_to_idx artifact. -/
def load_trained_model (nrm : List ℚ → List ℚ) (idToIdx : List (String × ℕ))
    (embeddings : List (List ℚ)) : List (List ℚ) × List String :=
  (embeddings.map nrm, buildIdmap idToIdx)

theorem findRow_eq_none {aid : String} :
    ∀ {l : List String}, aid ∉ l → findRow aid l = none := by
  intro l
  induction l with
  | nil => intro _; rfl
  | cons s rest ih =>
    intro h
    have hs : ¬ s = aid := fun he => h (he ▸ List.mem_cons_self _ _)
    rw [findRow, if_neg hs, ih (fun hm => h (List.mem_cons_of_mem _ hm))]
    rfl

/-- C4: a query route with no interactions (zero column sum), or one
absent from the interaction-matrix index (or with no matrix at all),
makes `get_collaborative_scores` return the empty mapping, and the
ensemble strategy then returns exactly the content strategy's output
(same ids, same scores, same order). -/
theorem collab_cold_start_fallback (st : RecState) (vecSim : ℕ → ℕ → ℚ)
    (collabSimF : ℕ → ℚ) (activity_id : String) (k : ℕ) (lam : ℚ)
    (h : st.user_route_matrix = none ∨ st.route_to_matrix_idx = none ∨
      (∃ rti, st.route_to_matrix_idx = some rti ∧ rti.lookup activity_id = none) ∨
      (∃ m rti qidx, st.user_route_matrix = some m ∧ st.route_to_matrix_idx = some rti ∧
        rti.lookup activity_id = some qidx ∧ colSum m qidx = 0)) :
    get_collaborative_scores st.user_route_matrix st.route_to_matrix_idx collabSimF
      activity_id = [] ∧
    search_by_activity st vecSim collabSimF activity_id k .ensemble lam =
      search_by_activity st vecSim collabSimF activity_id k .content lam := by
  have hempty : get_collaborative_scores st.user_route_matrix st.route_to_matrix_idx
      collabSimF activity_id = [] := by
    rcases h with h | h | ⟨rti, hrti, hl⟩ | ⟨m, rti, qidx, hm, hrti, hl, hs⟩
    · rw [h]
      cases st.route_to_matrix_idx <;> rfl
    · rw [h]
      cases st.user_route_matrix <;> rfl
    · rw [hrti]
      cases st.user_route_matrix with
      | none => rfl
      | some m => simp [get_collaborative_scores, hl]
    · rw [hrti, hm]
      simp [get_collaborative_scores, hl, hs]
  refine ⟨hempty, ?_⟩
  unfold search_by_activity
  cases hrow : findRow activity_id st.idmap with
  | none => rfl
  | some row =>
    have hp : poolSize RecommenderStrategy.ensemble k =
        poolSize RecommenderStrategy.content k := rfl
    simp only [strategyDispatch, hempty, if_pos, hp]

theorem length_foldl_set (l : List (String × ℕ)) :
    ∀ acc : List String,
      (l.foldl (fun acc p => acc.set p.2 p.1) acc).length = acc.length := by
  induction l with
  | nil => intro acc; rfl
  | cons p rest ih =>
    intro acc
    rw [List.foldl_cons, ih, List.length_set]

theorem length_buildIdmap (idToIdx : List (String × ℕ)) :
    (buildIdmap idToIdx).length = idToIdx.length := by
  rw [buildIdmap, length_foldl_set, List.length_replicate]

/-- C5: every way the (index, idmap) pair gets installed preserves
`len(idmap) == index.ntotal`: a CSV rebuild (one feature row and one id
per record), a trained-model load whose artifacts are consistent (as
many id-map entries as embedding rows), and a reload of a previously
saved consistent pair.  Row r of the index therefore always corresponds
to idmap[r]. -/
theorem index_idmap_length_invariant :
    (∀ (nrm scaler : List ℚ → List ℚ) (df : List (String × List ℚ)),
      (rebuild_from_csv nrm scaler df).1.length = (rebuild_from_csv nrm scaler df).2.length) ∧
    (∀ (nrm : List ℚ → List ℚ) (idToIdx : List (String × ℕ)) (embeddings : List (List ℚ)),
      idToIdx.length = embeddings.length →
      (load_trained_model nrm idToIdx embeddings).1.length =
        (load_trained_model nrm idToIdx embeddings).2.length) ∧
    (∀ (fresh st : RecState), st.index.length = st.idmap.length →
      (loadArtifacts fresh (saveArtifacts st)).index.length =
        (loadArtifacts fresh (saveArtifacts st)).idmap.length) := by
  refine ⟨?_, ?_, ?_⟩
  · intro nrm scaler df
    simp [rebuild_from_csv]
  · intro nrm idToIdx embeddings hlen
    simp [load_trained_model, length_buildIdmap, hlen]
  · intro fresh st hlen
    exact hlen

/-- C7: a query id absent from the idmap makes `search_by_activity`
return the empty list (the caught `IndexError` path), for every strategy
and every k, with no error. -/
theorem absent_query_returns_empty (st : RecState) (vecSim : ℕ → ℕ → ℚ)
    (collabSimF : ℕ → ℚ) (activity_id : String) (k : ℕ)
    (strategy : RecommenderStrategy) (lam : ℚ)
    (h : activity_id ∉ st.idmap) :
    search_by_activity st vecSim collabSimF activity_id k strategy lam = [] := by
  unfold search_by_activity
  rw [findRow_eq_none h]

/-- C8: persisting a built index (`_save` writes the index and the
idmap) and loading the artifacts into a fresh recommender (`_load`)
reproduces the original search results exactly — same ids, same scores —
for any query vector and any k, regardless of what the fresh
recommender held in its unpersisted fields. -/
theorem save_load_roundtrip_search (st fresh : RecState) (nrm : List ℚ → List ℚ)
    (vec : List ℚ) (k : ℕ) :
    search_by_vector (loadArtifacts fresh (saveArtifacts st)) nrm vec k =
      search_by_vector st nrm vec k := rfl

theorem candidateTriples_fst_ne (st : RecState) (aid : String) (row n : ℕ) :
    ∀ c ∈ candidateTriples st aid row n, c.1 ≠ aid := by
  intro c hc
  obtain ⟨h, _hmem, hfc⟩ := List.mem_filterMap.mp hc
  by_cases hg : st.idmap.getD h.1 "" = aid
  · rw [if_pos hg] at hfc
    cases hfc
  · rw [if_neg hg] at hfc
    injection hfc with hfc
    rw [← hfc]
    exact hg

theorem contentTopK_fst_mem (candidates : List String) (scores : List ℚ) (k : ℕ) :
    ∀ p ∈ contentTopK candidates scores k, p.1 ∈ candidates := by
  intro p hp
  obtain ⟨a, b⟩ := p
  exact List.mem_of_mem_take (List.of_mem_zip hp).1

theorem mmr_rerank_fst_mem (sim : ℕ → ℕ → ℚ) (ids : List String) (scores : List ℚ)
    (m : ℕ) (lam : ℚ) :
    ∀ p ∈ mmr_rerank sim ids scores m lam, p.1 ∈ ids := by
  intro p hp
  by_cases h0 : ids.length = 0
  · rw [List.length_eq_zero] at h0
    subst h0
    simp [mmr_rerank] at hp
  by_cases h1 : ids.length ≤ m
  · rw [mmr_rerank, if_neg h0, if_pos h1] at hp
    obtain ⟨a, b⟩ := p
    exact (List.of_mem_zip hp).1
  · rw [mmr_rerank, if_neg h0, if_neg h1] at hp
    obtain ⟨idx, hidx, hpe⟩ := List.mem_map.mp hp
    have hlt : idx < ids.length :=
      List.mem_range.mp (mmrLoop_subset lam sim _ _ _ _ idx hidx)
    rw [← hpe]
    rw [List.getD_eq_getElem ids "" hlt]
    exact List.getElem_mem hlt

theorem mmrOnTriples_fst_mem (vecSim : ℕ → ℕ → ℚ) (ts : List (String × ℕ × ℚ))
    (k : ℕ) (lam : ℚ) :
    ∀ p ∈ mmrOnTriples vecSim ts k lam, ∃ c ∈ ts, p.1 = c.1 := by
  intro p hp
  have h1 := mmr_rerank_fst_mem _ _ _ _ _ p hp
  obtain ⟨c, hc, hcp⟩ := List.mem_map.mp h1
  exact ⟨c, hc, hcp.symm⟩

theorem ensembleStrategyCore_fst_mem (cands : List (String × ℕ × ℚ))
    (dict : List (String × ℚ)) :
    ∀ t ∈ ensembleStrategyCore cands dict, ∃ c ∈ cands, t.1 = c.1 := by
  intro t ht
  have htz := ((List.perm_insertionSort scoreGE3 _).mem_iff).mp ht
  obtain ⟨i, hi, hti⟩ := List.mem_iff_getElem.mp htz
  have hic : i < cands.length := by
    rw [List.length_zipWith] at hi
    exact lt_of_lt_of_le hi (min_le_left _ _)
  refine ⟨cands[i], List.getElem_mem hic, ?_⟩
  rw [← hti, List.getElem_zipWith]

theorem ensembleTopK_fst_mem (cands : List (String × ℕ × ℚ))
    (dict : List (String × ℚ)) (k : ℕ) :
    ∀ p ∈ ensembleTopK cands dict k, ∃ c ∈ cands, p.1 = c.1 := by
  intro p hp
  obtain ⟨t, ht, hpt⟩ := List.mem_map.mp (List.mem_of_mem_take hp)
  obtain ⟨c, hc, htc⟩ := ensembleStrategyCore_fst_mem cands dict t ht
  refine ⟨c, hc, ?_⟩
  rw [← hpt]
  exact htc

theorem popularityTopK_fst_mem (pop : List (String × ℚ)) (candNames : List String)
    (candScores : List ℚ) (k : ℕ) :
    ∀ p ∈ popularityTopK pop candNames candScores k, p.1 ∈ candNames := by
  intro p hp
  unfold popularityTopK at hp
  by_cases hpop : pop = []
  · rw [if_pos hpop] at hp
    exact contentTopK_fst_mem _ _ _ p hp
  · rw [if_neg hpop] at hp
    unfold popNormalize at hp
    by_cases hse : List.insertionSort scoreGE
        (candNames.map (fun cid => (cid, (pop.lookup cid).getD 0))) = []
    · rw [if_pos hse, hse] at hp
      simp at hp
    · rw [if_neg hse] at hp
      obtain ⟨q, hq, hqp⟩ := List.mem_map.mp hp
      have hq2 := ((List.perm_insertionSort scoreGE _).mem_iff).mp (List.mem_of_mem_take hq)
      obtain ⟨cid, hcid, hcq⟩ := List.mem_map.mp hq2
      rw [← hqp]
      show q.1 ∈ candNames
      rw [← hcq]
      exact hcid

theorem strategyDispatch_fst_subset (st : RecState) (vecSim : ℕ → ℕ → ℚ)
    (collabSimF : ℕ → ℚ) (aid : String) (k : ℕ) (strategy : RecommenderStrategy)
    (lam : ℚ) (cands : List (String × ℕ × ℚ)) :
    ∀ p ∈ strategyDispatch st vecSim collabSimF aid k strategy lam cands,
      ∃ c ∈ cands, p.1 = c.1 := by
  intro p hp
  cases strategy with
  | content =>
    have h1 := contentTopK_fst_mem _ _ _ p hp
    obtain ⟨c, hc, hcp⟩ := List.mem_map.mp h1
    exact ⟨c, hc, hcp.symm⟩
  | content_mmr => exact mmrOnTriples_fst_mem _ _ _ _ p hp
  | ensemble =>
    rw [strategyDispatch] at hp
    by_cases hc : get_collaborative_scores st.user_route_matrix st.route_to_matrix_idx
        collabSimF aid = []
    · rw [if_pos hc] at hp
      have h1 := contentTopK_fst_mem _ _ _ p hp
      obtain ⟨c, hcm, hcp⟩ := List.mem_map.mp h1
      exact ⟨c, hcm, hcp.symm⟩
    · rw [if_neg hc] at hp
      exact ensembleTopK_fst_mem _ _ _ p hp
  | ensemble_mmr =>
    rw [strategyDispatch] at hp
    by_cases hc : get_collaborative_scores st.user_route_matrix st.route_to_matrix_idx
        collabSimF aid = []
    · rw [if_pos hc] at hp
      exact mmrOnTriples_fst_mem _ _ _ _ p hp
    · rw [if_neg hc] at hp
      obtain ⟨t, ht, hpt⟩ := mmrOnTriples_fst_mem _ _ _ _ p hp
      obtain ⟨c, hcm, htc⟩ := ensembleStrategyCore_fst_mem _ _ t ht
      exact ⟨c, hcm, hpt.trans htc⟩
  | popularity =>
    have h1 := popularityTopK_fst_mem _ _ _ _ p hp
    obtain ⟨c, hc, hcp⟩ := List.mem_map.mp h1
    exact ⟨c, hc, hcp.symm⟩

/-- C6: the candidate pool is over-fetched with `k * 10` exactly when
the strategy's name contains "mmr" (content_mmr and ensemble_mmr) and
with `k + 1` otherwise, and the query item is filtered out of the pool,
so no strategy ever returns the query id among its results. -/
theorem pool_size_and_self_exclusion :
    (∀ (strategy : RecommenderStrategy) (k : ℕ),
      poolSize strategy k =
        if strategy = .content_mmr ∨ strategy = .ensemble_mmr then k * 10 else k + 1) ∧
    (∀ (st : RecState) (vecSim : ℕ → ℕ → ℚ) (collabSimF : ℕ → ℚ) (aid : String)
      (k : ℕ) (strategy : RecommenderStrategy) (lam : ℚ),
      aid ∉ (search_by_activity st vecSim collabSimF aid k strategy lam).map Prod.fst) := by
  constructor
  · intro strategy k
    cases strategy <;> rfl
  · intro st vecSim collabSimF aid k strategy lam hmem
    obtain ⟨p, hp, hpa⟩ := List.mem_map.mp hmem
    rw [search_by_activity] at hp
    cases hrow : findRow aid st.idmap with
    | none =>
      rw [hrow] at hp
      cases hp
    | some row =>
      rw [hrow] at hp
      obtain ⟨c, hc, hpc⟩ := strategyDispatch_fst_subset _ _ _ _ _ _ _ _ p hp
      exact candidateTriples_fst_ne st aid row _ c hc (hpc ▸ hpa)

theorem mem_of_lookup_eq_some {β : Type} {l : List (String × β)} {a : String} {v : β}
    (h : l.lookup a = some v) : (a, v) ∈ l := by
  induction l with
  | nil => cases h
  | cons p rest ih =>
    obtain ⟨x, y⟩ := p
    cases hx : (a == x) with
    | true =>
      simp only [List.lookup, hx, Option.some.injEq] at h
      have hxa : a = x := eq_of_beq hx
      subst hxa
      subst h
      exact List.mem_cons_self _ _
    | false =>
      simp only [List.lookup, hx] at h
      exact List.mem_cons_of_mem _ (ih h)

theorem lookup_getD_nonneg {pop : List (String × ℚ)} (hnn : ∀ q ∈ pop, (0 : ℚ) ≤ q.2)
    (cid : String) : 0 ≤ (pop.lookup cid).getD 0 := by
  cases hl : pop.lookup cid with
  | none => simp
  | some v =>
    have hm := mem_of_lookup_eq_some hl
    simpa using hnn _ hm

/-- C9: with no popularity table loaded the popularity strategy returns
exactly the content strategy's output; with popularity data loaded
(scores nonnegative, as aggregated usage counts are), the candidate pool
is reordered by descending precomputed popularity and the returned
top-k scores are min-max normalised into [0, 1]. -/
theorem popularity_strategy_spec :
    (∀ (st : RecState) (vecSim : ℕ → ℕ → ℚ) (collabSimF : ℕ → ℚ) (aid : String)
      (k : ℕ) (lam : ℚ), st.popularity_scores = [] →
      search_by_activity st vecSim collabSimF aid k .popularity lam =
        search_by_activity st vecSim collabSimF aid k .content lam) ∧
    (∀ (pop : List (String × ℚ)) (candNames : List String) (candScores : List ℚ)
      (k : ℕ), pop ≠ [] → (∀ q ∈ pop, (0 : ℚ) ≤ q.2) →
      (popularityTopK pop candNames candScores k).length ≤ k ∧
      (popularityTopK pop candNames candScores k).Pairwise
        (fun a b => (pop.lookup b.1).getD 0 ≤ (pop.lookup a.1).getD 0) ∧
      (∀ p ∈ popularityTopK pop candNames candScores k, 0 ≤ p.2 ∧ p.2 ≤ 1) ∧
      (∃ mn r : ℚ, 0 < r ∧ ∀ p ∈ popularityTopK pop candNames candScores k,
        p.2 = ((pop.lookup p.1).getD 0 - mn) / r)) := by
  constructor
  · intro st vecSim collabSimF aid k lam hpop
    unfold search_by_activity
    cases hrow : findRow aid st.idmap with
    | none => rfl
    | some row =>
      have hps : poolSize RecommenderStrategy.popularity k =
          poolSize RecommenderStrategy.content k := rfl
      simp only [strategyDispatch, popularityTopK, hpop, hps, if_true, eq_self_iff_true]
  · intro pop candNames candScores k hpop hnn
    unfold popularityTopK
    rw [if_neg hpop]
    set srt := List.insertionSort scoreGE
      (candNames.map (fun cid => (cid, (pop.lookup cid).getD 0))) with hsrt
    by_cases hse : srt = []
    · rw [popNormalize, if_pos hse, hse]
      refine ⟨by simp, by simp, by simp, 0, 1, one_pos, by simp⟩
    · rw [popNormalize, if_neg hse]
      have hsorted : List.Sorted scoreGE srt := by
        rw [hsrt]
        exact List.sorted_insertionSort scoreGE _
      have hmemchar : ∀ q ∈ srt, q.2 = (pop.lookup q.1).getD 0 := by
        intro q hq
        rw [hsrt] at hq
        have hq2 := ((List.perm_insertionSort scoreGE _).mem_iff).mp hq
        obtain ⟨cid, _, hcq⟩ := List.mem_map.mp hq2
        rw [← hcq]
      have hq0 : ∀ q ∈ srt, (0 : ℚ) ≤ q.2 := fun q hq =>
        (hmemchar q hq) ▸ lookup_getD_nonneg hnn q.1
      have hmnle : ∀ q ∈ srt, popMin srt ≤ q.2 := by
        intro q hq
        unfold popMin
        by_cases hl : 1 < srt.length
        · rw [if_pos hl]
          exact listMin_le (List.mem_map_of_mem Prod.snd hq)
        · rw [if_neg hl]
          exact hq0 q hq
      have hlemax : ∀ q ∈ srt, q.2 ≤ listMax (srt.map Prod.snd) := fun q hq =>
        le_listMax (List.mem_map_of_mem Prod.snd hq)
      have hrpos : 0 < popRange srt := by
        unfold popRange
        by_cases hc : popMin srt < listMax (srt.map Prod.snd)
        · rw [if_pos hc]
          exact sub_pos.mpr hc
        · rw [if_neg hc]
          exact one_pos
      refine ⟨?_, ?_, ?_, popMin srt, popRange srt, hrpos, ?_⟩
      · rw [List.length_map, List.length_take]
        exact min_le_left _ _
      · have htake : (srt.take k).Pairwise scoreGE :=
          List.Pairwise.sublist (List.take_sublist k srt) hsorted
        apply List.pairwise_map.mpr
        refine htake.imp_of_mem ?_
        intro a b ha hb hab
        have ha2 := List.mem_of_mem_take ha
        have hb2 := List.mem_of_mem_take hb
        show (pop.lookup b.1).getD 0 ≤ (pop.lookup a.1).getD 0
        rw [← hmemchar a ha2, ← hmemchar b hb2]
        exact hab
      · intro p hp
        obtain ⟨q, hq, hqp⟩ := List.mem_map.mp hp
        have hq2 := List.mem_of_mem_take hq
        rw [← hqp]
        constructor
        · exact div_nonneg (sub_nonneg.mpr (hmnle q hq2)) (le_of_lt hrpos)
        · rw [div_le_one hrpos]
          unfold popRange
          by_cases hc : popMin srt < listMax (srt.map Prod.snd)
          · rw [if_pos hc]
            exact sub_le_sub_right (hlemax q hq2) _
          · rw [if_neg hc]
            have h1 : q.2 ≤ popMin srt := le_trans (hlemax q hq2) (not_lt.mp hc)
            linarith
      · intro p hp
        obtain ⟨q, hq, hqp⟩ := List.mem_map.mp hp
        have hq2 := List.mem_of_mem_take hq
        rw [← hqp]
        show (q.2 - popMin srt) / popRange srt = _
        rw [hmemchar q hq2]

/-- C3: when the collaborative mapping for the query item is nonempty,
the ensemble strategy returns the blend-sorted candidate pool, and each
returned pair's score is `0.6 * content_normalized + 0.4 *
collab_normalized` of that candidate, both components min-max normalised
per call over the candidate pool (a range-degenerate component
normalising to all zeros); the results come sorted by descending blended
score, at most k of them.  Collaborative scores are cosine similarities
of interaction columns, hence nonnegative (`hnn`). -/
theorem ensemble_blend_correct (st : RecState) (vecSim : ℕ → ℕ → ℚ)
    (collabSimF : ℕ → ℚ) (aid : String) (k : ℕ) (lam : ℚ) (row : ℕ)
    (cands : List (String × ℕ × ℚ)) (collabDict : List (String × ℚ))
    (hrow : findRow aid st.idmap = some row)
    (hdict : collabDict =
      get_collaborative_scores st.user_route_matrix st.route_to_matrix_idx collabSimF aid)
    (hne : collabDict ≠ [])
    (hcands : cands = candidateTriples st aid row (poolSize .ensemble k))
    (hnn : ∀ c ∈ cands, (0 : ℚ) ≤ (collabDict.lookup c.1).getD 0) :
    search_by_activity st vecSim collabSimF aid k .ensemble lam =
      ensembleTopK cands collabDict k ∧
    (ensembleTopK cands collabDict k).length ≤ k ∧
    ((ensembleTopK cands collabDict k).map Prod.snd).Sorted (fun a b => b ≤ a) ∧
    (∀ p ∈ ensembleTopK cands collabDict k,
      ∃ i, i < cands.length ∧ p.1 = (cands.getD i ("", 0, 0)).1 ∧
        p.2 = (3 / 5) * (minmaxNormalize (cands.map (fun c => c.2.2))).getD i 0
            + (2 / 5) * (minmaxNormalize
                (cands.map (fun c => (collabDict.lookup c.1).getD 0))).getD i 0) := by
  have hparts := ensemble_blend_parts cands collabDict k hnn
  refine ⟨?_, hparts.1, hparts.2.1, hparts.2.2⟩
  rw [search_by_activity, hrow]
  show (if get_collaborative_scores st.user_route_matrix st.route_to_matrix_idx collabSimF
      aid = [] then _ else _) = _
  rw [← hdict, if_neg hne, hcands]

/-- Witness for C1 at a concrete three-candidate pool with top_m = 2. -/
theorem mmr_rerank_is_greedy_witness :
    2 < (["a", "b", "c"] : List String).length ∧
    (∃ out : List ℕ,
      GreedyMMR 0 (fun _ _ => 0) (fun i => (minmaxNormalize [3, 1, 2]).getD i 0) 2 []
        (List.range 3) out ∧
      out.length = 2 ∧
      mmr_rerank (fun _ _ => 0) ["a", "b", "c"] [3, 1, 2] 2 0 =
        out.map (fun idx =>
          (["a", "b", "c"].getD idx "", (minmaxNormalize [3, 1, 2]).getD idx 0))) :=
  ⟨by decide, mmr_rerank_is_greedy (fun _ _ => 0) ["a", "b", "c"] [3, 1, 2] 2 0 (by decide)⟩

/-- Witness for C2 at a concrete descending-score pool. -/
theorem mmr_rerank_lambda_one_matches_content_witness :
    (mmr_rerank (fun _ _ => 0) ["a", "b", "c"] [3, 2, 1] 2 1).map Prod.fst =
      (contentTopK ["a", "b", "c"] [3, 2, 1] 2).map Prod.fst :=
  mmr_rerank_lambda_one_matches_content (fun _ _ => 0) ["a", "b", "c"] [3, 2, 1] 2
    (by decide) (by decide)

/-- Witness for C3 at a concrete recommender state whose query route has
collaborative data. -/
theorem ensemble_blend_correct_witness :
    search_by_activity ⟨[], ["a", "b"], [], some [[1, 0]], some [("a", 0), ("b", 1)]⟩
        (fun _ _ => 0) (fun _ => 0) "a" 1 .ensemble 0 =
      ensembleTopK [] [("b", 0)] 1 ∧
    (ensembleTopK [] [("b", 0)] 1).length ≤ 1 ∧
    ((ensembleTopK [] [("b", 0)] 1).map Prod.snd).Sorted (fun a b => b ≤ a) ∧
    (∀ p ∈ ensembleTopK [] [("b", 0)] 1,
      ∃ i, i < ([] : List (String × ℕ × ℚ)).length ∧
        p.1 = (([] : List (String × ℕ × ℚ)).getD i ("", 0, 0)).1 ∧
        p.2 = (3 / 5) *
            (minmaxNormalize (([] : List (String × ℕ × ℚ)).map (fun c => c.2.2))).getD i 0
          + (2 / 5) * (minmaxNormalize (([] : List (String × ℕ × ℚ)).map
              (fun c => (([("b", (0 : ℚ))]).lookup c.1).getD 0))).getD i 0) :=
  ensemble_blend_correct ⟨[], ["a", "b"], [], some [[1, 0]], some [("a", 0), ("b", 1)]⟩
    (fun _ _ => 0) (fun _ => 0) "a" 1 0 0 [] [("b", 0)]
    (by decide)
    (by simp [get_collaborative_scores, colSum, List.lookup])
    (by decide)
    (by decide)
    (by decide)

/-- Witness for C4 at a concrete state with no interaction matrix. -/
theorem collab_cold_start_fallback_witness :
    get_collaborative_scores none none (fun _ => 0) "x" = [] ∧
    search_by_activity ⟨[], [], [], none, none⟩ (fun _ _ => 0) (fun _ => 0) "x" 1
        .ensemble 0 =
      search_by_activity ⟨[], [], [], none, none⟩ (fun _ _ => 0) (fun _ => 0) "x" 1
        .content 0 :=
  collab_cold_start_fallback ⟨[], [], [], none, none⟩ (fun _ _ => 0) (fun _ => 0) "x" 1 0
    (Or.inl rfl)

/-- Witness for C5 at concrete artifacts. -/
theorem index_idmap_length_invariant_witness :
    (rebuild_from_csv id id [("a", [1])]).1.length =
      (rebuild_from_csv id id [("a", [1])]).2.length ∧
    (([("a", 0)] : List (String × ℕ)).length = ([[1]] : List (List ℚ)).length ∧
      (load_trained_model id [("a", 0)] [[1]]).1.length =
        (load_trained_model id [("a", 0)] [[1]]).2.length) ∧
    ((⟨[[1]], ["a"], [], none, none⟩ : RecState).index.length =
        (⟨[[1]], ["a"], [], none, none⟩ : RecState).idmap.length ∧
      (loadArtifacts ⟨[], [], [], none, none⟩
          (saveArtifacts ⟨[[1]], ["a"], [], none, none⟩)).index.length =
        (loadArtifacts ⟨[], [], [], none, none⟩
          (saveArtifacts ⟨[[1]], ["a"], [], none, none⟩)).idmap.length) :=
  ⟨index_idmap_length_invariant.1 id id [("a", [1])],
   ⟨by decide, index_idmap_length_invariant.2.1 id [("a", 0)] [[1]] (by decide)⟩,
   ⟨by decide, index_idmap_length_invariant.2.2 ⟨[], [], [], none, none⟩
      ⟨[[1]], ["a"], [], none, none⟩ (by decide)⟩⟩

/-- Witness for C6 at a concrete strategy, k, and state. -/
theorem pool_size_and_self_exclusion_witness :
    poolSize .content_mmr 2 =
      (if RecommenderStrategy.content_mmr = .content_mmr ∨
          RecommenderStrategy.content_mmr = .ensemble_mmr then 2 * 10 else 2 + 1) ∧
    "x" ∉ (search_by_activity ⟨[], ["x"], [], none, none⟩ (fun _ _ => 0) (fun _ => 0)
        "x" 1 .content 0).map Prod.fst :=
  ⟨pool_size_and_self_exclusion.1 .content_mmr 2,
   pool_size_and_self_exclusion.2 ⟨[], ["x"], [], none, none⟩ (fun _ _ => 0)
     (fun _ => 0) "x" 1 .content 0⟩

/-- Witness for C7 at a concrete state not containing the query id. -/
theorem absent_query_returns_empty_witness :
    search_by_activity ⟨[], ["a"], [], none, none⟩ (fun _ _ => 0) (fun _ => 0) "b" 1
        .content 0 = [] :=
  absent_query_returns_empty ⟨[], ["a"], [], none, none⟩ (fun _ _ => 0) (fun _ => 0)
    "b" 1 .content 0 (by decide)

/-- Witness for C9 at a concrete empty-table state and a concrete
two-entry popularity table. -/
theorem popularity_strategy_spec_witness :
    (search_by_activity ⟨[], ["a"], [], none, none⟩ (fun _ _ => 0) (fun _ => 0) "a" 1
        .popularity 0 =
      search_by_activity ⟨[], ["a"], [], none, none⟩ (fun _ _ => 0) (fun _ => 0) "a" 1
        .content 0) ∧
    ((popularityTopK [("a", 2), ("b", 1)] ["a", "b"] [5, 4] 1).length ≤ 1 ∧
      (popularityTopK [("a", 2), ("b", 1)] ["a", "b"] [5, 4] 1).Pairwise
        (fun a b => (([("a", (2 : ℚ)), ("b", 1)]).lookup b.1).getD 0 ≤
          (([("a", (2 : ℚ)), ("b", 1)]).lookup a.1).getD 0) ∧
      (∀ p ∈ popularityTopK [("a", 2), ("b", 1)] ["a", "b"] [5, 4] 1,
        0 ≤ p.2 ∧ p.2 ≤ 1) ∧
      (∃ mn r : ℚ, 0 < r ∧
        ∀ p ∈ popularityTopK [("a", 2), ("b", 1)] ["a", "b"] [5, 4] 1,
          p.2 = ((([("a", (2 : ℚ)), ("b", 1)]).lookup p.1).getD 0 - mn) / r)) :=
  ⟨popularity_strategy_spec.1 ⟨[], ["a"], [], none, none⟩ (fun _ _ => 0) (fun _ => 0)
     "a" 1 0 rfl,
   popularity_strategy_spec.2 [("a", 2), ("b", 1)] ["a", "b"] [5, 4] 1
     (by decide) (by decide)⟩

/-- Witness for C10 at a concrete three-candidate pool. -/
theorem mmr_rerank_score_scale_witness :
    ((["a", "b", "c"] : List String).length ≤ 2 →
      mmr_rerank (fun _ _ => 0) ["a", "b", "c"] [3, 1, 2] 2 0 =
        (["a", "b", "c"] : List String).zip ([3, 1, 2] : List ℚ)) ∧
    (2 < (["a", "b", "c"] : List String).length →
      ∀ p ∈ mmr_rerank (fun _ _ => 0) ["a", "b", "c"] [3, 1, 2] 2 0,
        ∃ i, i < (["a", "b", "c"] : List String).length ∧
          p.1 = ["a", "b", "c"].getD i "" ∧
          p.2 = (([3, 1, 2] : List ℚ).getD i 0 - listMin [3, 1, 2]) /
            (if listMin [3, 1, 2] < listMax [3, 1, 2] then
              listMax [3, 1, 2] - listMin [3, 1, 2] else 1)) :=
  mmr_rerank_score_scale (fun _ _ => 0) ["a", "b", "c"] [3, 1, 2] 2 0 (by decide)

end StravaRec
